import Mathlib

/-!
Verification of the ELA + Random Forest deepfake detector backend
(`deepfake_model_ela_rf.py`) and the dataset-ingestion utility
(`deepfake_metadata.py`).

The error map (`ela_array`, a 2-D uint8 array in the source) is embedded as a
`List (List ℚ)` of pixel intensities; numpy reductions (`mean`, `std`, `median`,
`percentile`, `histogram`, `diff`) are translated to exact rational arithmetic.
The one operation that is not rational-valued, `np.std` (a square root), is
passed as an explicit parameter and constrained by `s * s = variance ∧ 0 ≤ s`
in the theorems that depend on its value.
-/

abbrev Pixel := ℕ × ℕ

abbrev Grid := List (List ℚ)

abbrev Box := ℕ × ℕ × ℕ × ℕ

/-- Element lookup in the error map: `ela_array[y, x]` (0 outside bounds;
the source never indexes out of bounds). -/
def pix (g : Grid) (p : Pixel) : ℚ := (g.getD p.1 []).getD p.2 0

/-- `ela_array.size`: total number of pixels. -/
def gridSize (g : Grid) : ℕ := (g.map List.length).sum

/-- The pixels of the error map in row-major order. -/
def entriesOf (g : Grid) : List ℚ := g.flatten

/-- `int(np.sum(ela_array > threshold))`: the number of strictly suspicious pixels. -/
def suspiciousCount (g : Grid) (t : ℚ) : ℕ :=
  ((entriesOf g).filter (fun v => decide (t < v))).length

/-- `suspicious_percentage = suspicious_pixels / ela_array.size * 100`. -/
def suspiciousPct (g : Grid) (t : ℚ) : ℚ :=
  (suspiciousCount g t : ℚ) / (gridSize g : ℚ) * 100

/-- `suspicious_mask = ela_array > threshold`. -/
def maskOf (g : Grid) (t : ℚ) : List (List Bool) :=
  g.map (fun row => row.map (fun v => decide (t < v)))

/-- Membership test of a boolean mask (false outside bounds). -/
def maskGet (m : List (List Bool)) (y x : ℕ) : Bool := (m.getD y []).getD x false

/-- `scipy.ndimage.binary_erosion` with the 2×2 all-ones structuring element
(origin at its centre cell (1,1), border value 0): the output holds at (y,x)
iff the whole window rows y-1..y × cols x-1..x lies inside the mask. -/
def erodeM (m : List (List Bool)) : List (List Bool) :=
  m.mapIdx (fun y row => row.mapIdx (fun x _ =>
    decide (1 ≤ y) && decide (1 ≤ x) &&
    maskGet m (y - 1) (x - 1) && maskGet m (y - 1) x &&
    maskGet m y (x - 1) && maskGet m y x))

/-- `scipy.ndimage.binary_dilation` with the reflected 2×2 structuring element:
the output holds at (y,x) iff some pixel of the window rows y..y+1 × cols
x..x+1 is in the mask. -/
def dilateM (m : List (List Bool)) : List (List Bool) :=
  m.mapIdx (fun y row => row.mapIdx (fun x _ =>
    maskGet m y x || maskGet m y (x + 1) ||
    maskGet m (y + 1) x || maskGet m (y + 1) (x + 1)))

/-- `binary_opening(suspicious_mask, structure=np.ones((2,2)), iterations=1)`:
one erosion followed by one dilation. -/
def openM (m : List (List Bool)) : List (List Bool) := dilateM (erodeM m)

/-- The suspicious mask after the noise-suppression policy of
`find_suspicious_regions`: morphological opening is applied exactly when the
suspicious fraction exceeds `noise_threshold_pct = 15` percent. -/
def suppressedMask (g : Grid) (t : ℚ) : List (List Bool) :=
  if 15 < suspiciousPct g t then openM (maskOf g t) else maskOf g t

/-- Coordinates of the true pixels of a mask, row-major. -/
def truePixelsM (m : List (List Bool)) : List Pixel :=
  (m.mapIdx (fun y row =>
    (row.mapIdx (fun x b => if b then [(y, x)] else [])).flatten)).flatten

/-- 4-adjacency of grid pixels (the default cross-shaped structuring element
of `ndimage.label`). -/
def adjacentB (p q : Pixel) : Bool :=
  (p.1 == q.1 && (p.2 == q.2 + 1 || q.2 == p.2 + 1)) ||
  (p.2 == q.2 && (p.1 == q.1 + 1 || q.1 == p.1 + 1))

/-- Fuel-bounded flood fill: grows the connected component of the frontier
pixels inside `rest`, returning the component and the untouched pixels. -/
def flood : ℕ → List Pixel → List Pixel → List Pixel → List Pixel × List Pixel
  | 0, _, comp, rest => (comp, rest)
  | _ + 1, [], comp, rest => (comp, rest)
  | fuel + 1, p :: fr, comp, rest =>
      let pr := rest.partition (fun q => adjacentB p q)
      flood fuel (fr ++ pr.1) (comp ++ [p]) pr.2

/-- Fuel-bounded decomposition of a pixel list into 4-connected components. -/
def labelComps : ℕ → List Pixel → List (List Pixel)
  | 0, _ => []
  | _ + 1, [] => []
  | fuel + 1, p :: rest =>
      let cr := flood (rest.length + 1) [p] [] rest
      cr.1 :: labelComps fuel cr.2

/-- `ndimage.label(suspicious_mask)`: the 4-connected components of the true
pixels, in raster order of their first pixel; `num_features` is the length of
the returned list. -/
def labelComponents (pixels : List Pixel) : List (List Pixel) :=
  labelComps pixels.length pixels

/-- Minimum of a list, with default `d` for the empty list. -/
def minList {α : Type} [Min α] (d : α) : List α → α
  | [] => d
  | x :: xs => xs.foldl min x

/-- Maximum of a list, with default `d` for the empty list. -/
def maxList {α : Type} [Max α] (d : α) : List α → α
  | [] => d
  | x :: xs => xs.foldl max x

/-- `float(np.mean(region_values))`: the mean error intensity over a
component's pixels (`ela_array[labeled_array == i]` in the coordinate path,
`ela_array[slice_obj][region_mask]` in the slice path — the same pixel set). -/
def regionMean (g : Grid) (comp : List Pixel) : ℚ :=
  (comp.map (fun p => pix g p)).sum / (comp.length : ℚ)

/-- Per-component processing of the coordinate-enumeration path of
`find_suspicious_regions` (lines 143-154): `coords = np.argwhere(...)`,
reject if `len(coords) < min_area`, bounding box from coordinate minima and
maxima, `width, height = x_max - x_min, y_max - y_min`, keep if
`width > 10 and height > 10`. -/
def coordProcess (g : Grid) (min_area : ℕ) (comp : List Pixel) : Option (Box × ℕ × ℚ) :=
  if comp.length < min_area then none
  else
    let y_min := minList 0 (comp.map Prod.fst)
    let x_min := minList 0 (comp.map Prod.snd)
    let y_max := maxList 0 (comp.map Prod.fst)
    let x_max := maxList 0 (comp.map Prod.snd)
    let width := x_max - x_min
    let height := y_max - y_min
    if 10 < width ∧ 10 < height then
      some ((x_min, y_min, width, height), comp.length, regionMean g comp)
    else none

/-- Per-component processing of the bounding-slice path of
`find_suspicious_regions` (lines 123-138): the slice from `find_objects` spans
rows `y_min..y_max+1` and cols `x_min..x_max+1`; `region_size` counts the
component's pixels inside the slice, reject if `region_size < min_area`,
`width, height = x_slice.stop - x_slice.start, y_slice.stop - y_slice.start`,
keep if `width > 10 and height > 10`. -/
def sliceProcess (g : Grid) (min_area : ℕ) (comp : List Pixel) : Option (Box × ℕ × ℚ) :=
  let y_min := minList 0 (comp.map Prod.fst)
  let x_min := minList 0 (comp.map Prod.snd)
  let y_stop := maxList 0 (comp.map Prod.fst) + 1
  let x_stop := maxList 0 (comp.map Prod.snd) + 1
  let region_size := (comp.filter (fun p =>
    decide (y_min ≤ p.1) && decide (p.1 < y_stop) &&
    decide (x_min ≤ p.2) && decide (p.2 < x_stop))).length
  if region_size < min_area then none
  else
    let width := x_stop - x_min
    let height := y_stop - y_min
    if 10 < width ∧ 10 < height then
      some ((x_min, y_min, width, height), region_size, regionMean g comp)
    else none

/-- Index-aligned result lists `(boxes, region_sizes, region_intensities)`. -/
def unzipRecords (recs : List (Box × ℕ × ℚ)) : List Box × List ℕ × List ℚ :=
  (recs.map (fun r => r.1), recs.map (fun r => r.2.1), recs.map (fun r => r.2.2))

/-- The bounding-slice extraction strategy applied to every labeled component. -/
def sliceStrategy (g : Grid) (min_area : ℕ) (comps : List (List Pixel)) :
    List Box × List ℕ × List ℚ :=
  unzipRecords (comps.filterMap (sliceProcess g min_area))

/-- The coordinate-enumeration extraction strategy applied to every labeled
component. -/
def coordStrategy (g : Grid) (min_area : ℕ) (comps : List (List Pixel)) :
    List Box × List ℕ × List ℚ :=
  unzipRecords (comps.filterMap (coordProcess g min_area))

/-- `find_suspicious_regions(ela_array, threshold, min_area)`: returns empty
lists when no pixel is suspicious or labeling yields no component, applies the
noise-suppression policy, and picks the bounding-slice strategy when more than
1000 components were labeled, the coordinate-enumeration strategy otherwise. -/
def find_suspicious_regions (g : Grid) (t : ℚ) (min_area : ℕ) :
    List Box × List ℕ × List ℚ :=
  if suspiciousCount g t = 0 then ([], [], [])
  else
    let comps := labelComponents (truePixelsM (suppressedMask g t))
    if comps.length = 0 then ([], [], [])
    else if 1000 < comps.length then sliceStrategy g min_area comps
    else coordStrategy g min_area comps

/-- `float(np.mean(ela_array))`. -/
def meanQ (g : Grid) : ℚ := (entriesOf g).sum / (gridSize g : ℚ)

/-- `float(np.max(ela_array))`. -/
def maxQ (g : Grid) : ℚ := maxList 0 (entriesOf g)

/-- `ela_array.min()`. -/
def minQ (g : Grid) : ℚ := minList 0 (entriesOf g)

/-- The square of `np.std(ela_array)` (population variance, `ddof = 0`). -/
def varianceQ (g : Grid) : ℚ :=
  (((entriesOf g).map (fun v => (v - meanQ g) ^ 2)).sum) / (gridSize g : ℚ)

/-- `threshold = mean_error + threshold_multiplier * std_error`, with the
irrational `std_error = sqrt(varianceQ)` supplied as the parameter `s`. -/
def thresholdQ (mult : ℚ) (g : Grid) (s : ℚ) : ℚ := meanQ g + mult * s

/-- Ascending insertion step of a stable sort. -/
def insertAsc (x : ℚ) : List ℚ → List ℚ
  | [] => [x]
  | y :: ys => if x ≤ y then x :: y :: ys else y :: insertAsc x ys

/-- Sorting of the pixel values, as `np.median` / `np.percentile` do internally. -/
def sortAsc (l : List ℚ) : List ℚ := l.foldr insertAsc []

/-- Floor of a nonnegative rational (every interpolation position below is
nonnegative, so this agrees with the mathematical floor). -/
def natFloorQ (q : ℚ) : ℕ := q.num.toNat / q.den

/-- `np.percentile(ela_array, q)` with the default linear interpolation:
position `(n - 1) * q / 100` into the sorted data, interpolating linearly
between the neighbouring order statistics. -/
def percentileQ (l : List ℚ) (q : ℚ) : ℚ :=
  let s := sortAsc l
  let pos : ℚ := ((s.length - 1 : ℕ) : ℚ) * q / 100
  let i := natFloorQ pos
  let lo := s.getD i 0
  let hi := s.getD (i + 1) lo
  lo + (pos - (i : ℚ)) * (hi - lo)

/-- `float(np.median(ela_array))`: middle order statistic, or the mean of the
two middle ones for an even pixel count. -/
def medianQ (g : Grid) : ℚ :=
  let s := sortAsc (entriesOf g)
  let n := s.length
  if n % 2 = 1 then s.getD (n / 2) 0
  else (s.getD (n / 2 - 1) 0 + s.getD (n / 2) 0) / 2

/-- Pixel count of bin `i` of `np.histogram(ela_array, bins=10, range=(0, 255))`:
bin edges at `25.5 * i`, all bins half-open except the last, which is closed. -/
def binCount (l : List ℚ) (i : ℕ) : ℕ :=
  (l.filter (fun v =>
    decide ((51 * (i : ℚ)) / 2 ≤ v) &&
    (if i = 9 then decide (v ≤ 255) else decide (v < (51 * ((i : ℚ) + 1)) / 2)))).length

/-- `hist_norm = hist / ela_array.size`: the ten histogram bins normalized by
the pixel count. -/
def histNorm (g : Grid) : List ℚ :=
  (List.range 10).map (fun i => (binCount (entriesOf g) i : ℚ) / (gridSize g : ℚ))

/-- `float(np.abs(np.diff(ela_array, axis=0)).sum())`. -/
def edgesH (g : Grid) : ℚ :=
  (List.zipWith (fun r1 r2 => (List.zipWith (fun a b => |b - a|) r1 r2).sum) g (g.drop 1)).sum

/-- `float(np.abs(np.diff(ela_array, axis=1)).sum())`. -/
def edgesV (g : Grid) : ℚ :=
  (g.map (fun r => (List.zipWith (fun a b => |b - a|) r (r.drop 1)).sum)).sum

/-- `float(np.mean(region_sizes)) if region_sizes else 0.0`. -/
def avgRegionSize (sizes : List ℕ) : ℚ :=
  if sizes = [] then 0 else ((sizes.map (fun n => (n : ℚ))).sum) / (sizes.length : ℚ)

/-- `float(np.max(region_sizes)) if region_sizes else 0.0`. -/
def maxRegionSize (sizes : List ℕ) : ℚ :=
  if sizes = [] then 0 else (maxList 0 sizes : ℚ)

/-- `float(np.mean(region_intensities)) if region_intensities else 0.0`. -/
def avgRegionIntensity (ints : List ℚ) : ℚ :=
  if ints = [] then 0 else ints.sum / (ints.length : ℚ)

/-- `float(np.std(region_sizes)) if region_sizes else 0.0`; the nonempty value
(an irrational square root) is supplied as the parameter `s`. -/
def regionSizeStd (sizes : List ℕ) (s : ℚ) : ℚ :=
  if sizes = [] then 0 else s

/-- The 29-entry feature vector assembled by `extract_features` (lines 162-194)
from the error map `g`, in the source's concatenation order. `mult` is
`ELA_CFG.threshold_multiplier`, `minRegion` is `ELA_CFG.min_region_size`, and
`sErr`, `sReg` stand for the two `np.std` square roots. -/
def extract_features (mult : ℚ) (minRegion : ℕ) (g : Grid) (sErr sReg : ℚ) : List ℚ :=
  let threshold := thresholdQ mult g sErr
  let r := find_suspicious_regions g threshold minRegion
  [meanQ g, maxQ g, sErr, medianQ g, threshold,
   (suspiciousCount g threshold : ℚ), suspiciousPct g threshold] ++
  [(r.1.length : ℚ), avgRegionSize r.2.1, maxRegionSize r.2.1,
   avgRegionIntensity r.2.2, regionSizeStd r.2.1 sReg] ++
  histNorm g ++
  [percentileQ (entriesOf g) 25, percentileQ (entriesOf g) 50,
   percentileQ (entriesOf g) 75, percentileQ (entriesOf g) 90,
   percentileQ (entriesOf g) 95] ++
  [edgesH g, edgesV g]

/-- `np.ptp(ela_array)`: the value range max - min. -/
def ptpQ (g : Grid) : ℚ := maxQ g - minQ g

/-- The guarded denominator `(ptp_val or 1)` of `_ela_heatmap_image`. -/
def heatDenom (g : Grid) : ℚ := if ptpQ g = 0 then 1 else ptpQ g

/-- `normalized = (ela_array - ela_array.min()) / (ptp_val or 1)`. -/
def heatNormalize (g : Grid) : Grid :=
  g.map (fun row => row.map (fun v => (v - minQ g) / heatDenom g))

/-- The `analysis_panel` object of the `/analyze` response. -/
structure AnalysisPanel where
  label : String
  real_prob : ℚ
  fake_prob : ℚ
  is_fake : Bool
  deriving Repr, DecidableEq

/-- Assembly of the `analysis_panel` from the external classifier's outputs
(lines 269-296): `real_prob, fake_prob = proba[0], proba[1]`,
`is_fake = bool(pred == 1)`, `label = "FAKE" if is_fake else "REAL"`. -/
def analysisPanel (pred : ℕ) (proba : ℚ × ℚ) : AnalysisPanel :=
  let is_fake := pred == 1
  { label := if is_fake then "FAKE" else "REAL"
    real_prob := proba.1
    fake_prob := proba.2
    is_fake := is_fake }

/-- The parsed JSON configuration artifact; `feature_names` is `none` when the
key is absent from the JSON object (the source reads it with
`config.get("feature_names", [])`). -/
structure ConfigJson where
  ela_quality : Int
  threshold_multiplier : ℚ
  min_region_size : Int
  enhancement_strength : ℚ
  feature_names : Option (List String)
  deriving Repr, DecidableEq

/-- The `ElaConfig` dataclass built by `_load_artifacts`. -/
structure ElaConfig where
  ela_quality : Int
  threshold_multiplier : ℚ
  min_region_size : Int
  enhancement_strength : ℚ
  feature_names : List String
  deriving Repr, DecidableEq

/-- The startup error message of `_load_artifacts`. -/
def artifactsMissingMsg : String :=
  "Model artifacts missing. Expected random_forest_model.pkl, feature_scaler.pkl, feature_config.json under feature_model_output/."

/-- `_load_artifacts` (lines 60-76): raises unless the model, scaler and config
files all exist, then builds `ElaConfig`, defaulting an absent `feature_names`
key to the empty list. -/
def load_artifacts (modelExists scalerExists configExists : Bool)
    (config : ConfigJson) : Except String ElaConfig :=
  if !(modelExists && scalerExists && configExists) then
    Except.error artifactsMissingMsg
  else
    Except.ok
      { ela_quality := config.ela_quality
        threshold_multiplier := config.threshold_multiplier
        min_region_size := config.min_region_size
        enhancement_strength := config.enhancement_strength
        feature_names := config.feature_names.getD [] }

/-- `TOP_N_BOXES = 10` (line 45). -/
def TOP_N_BOXES : ℕ := 10

/-- The sort key `b[2] * b[3]` (box area width * height). -/
def area (b : Box) : ℕ := b.2.2.1 * b.2.2.2

/-- Insertion step of the stable descending sort by stored size: an element
moves in front of exactly the strictly smaller keys, so equal keys keep their
original relative order, as Python's stable `sorted(..., reverse=True)` does. -/
def insertDesc (x : Box × ℕ) : List (Box × ℕ) → List (Box × ℕ)
  | [] => [x]
  | y :: ys => if y.2 ≤ x.2 then x :: y :: ys else y :: insertDesc x ys

/-- `sorted(boxes_with_sizes, key=lambda x: x[1], reverse=True)`: the stable
descending sort by size (the stable sort result is unique, so insertion sort
realises it). -/
def sortBoxesDesc (l : List (Box × ℕ)) : List (Box × ℕ) := l.foldr insertDesc []

/-- Top-box selection of `analyze_image` (lines 276-278): pair each detected
box with its area, stable-sort descending by area, keep the first
`TOP_N_BOXES` boxes. -/
def topBoxes (boxes : List Box) : List Box :=
  let boxes_with_sizes := boxes.map (fun b => (b, area b))
  let boxes_sorted := sortBoxesDesc boxes_with_sizes
  (boxes_sorted.take TOP_N_BOXES).map Prod.fst

/-- `SPLIT_THRESHOLDS = (0.8, 0.9)` (deepfake_metadata.py line 14). -/
def SPLIT_THRESHOLDS : ℚ × ℚ := (0.8, 0.9)

/-- `int(sha[:8], 16)` on a checksum given as its list of hex-digit values. -/
def hexVal (ds : List ℕ) : ℕ := ds.foldl (fun acc d => 16 * acc + d) 0

/-- `r = int(sha[:8], 16) / 0xFFFFFFFF`. -/
def splitRatio (sha : List ℕ) : ℚ := (hexVal (sha.take 8) : ℚ) / 0xFFFFFFFF

/-- `assign_split_from_checksum` (deepfake_metadata.py lines 37-42). -/
def assign_split_from_checksum (sha : List ℕ) : String :=
  if splitRatio sha < SPLIT_THRESHOLDS.1 then "train"
  else if splitRatio sha < SPLIT_THRESHOLDS.2 then "val"
  else "test"

/-- Actual horizontal pixel extent of a component's bounding box (number of
occupied columns). -/
def extentW (comp : List Pixel) : ℕ :=
  maxList 0 (comp.map Prod.snd) + 1 - minList 0 (comp.map Prod.snd)

/-- Actual vertical pixel extent of a component's bounding box (number of
occupied rows). -/
def extentH (comp : List Pixel) : ℕ :=
  maxList 0 (comp.map Prod.fst) + 1 - minList 0 (comp.map Prod.fst)

/-- The set of `(x, y, width, height, pixel_count)` records of an extraction
result, forgetting list order. -/
def recordsOf (r : List Box × List ℕ × List ℚ) : Multiset (Box × ℕ) :=
  (r.1.zip r.2.1 : List (Box × ℕ))

/-- An 11×11 error map whose suspicious pixels (value 1 against threshold 0)
form a plus shape: full middle row and full middle column. Its single
4-connected component has bounding-box extent 11×11 but only 21 pixels. -/
def gPlus : Grid :=
  (List.range 11).map (fun y =>
    (List.range 11).map (fun x => if y = 5 ∨ x = 5 then (1 : ℚ) else 0))

/-- A solid 4-connected component spanning 12 rows × 11 columns. -/
def comp11x12 : List Pixel :=
  ((List.range 12).map (fun y => (List.range 11).map (fun x => (y, x)))).flatten

/-- An all-zero 12×11 error map (component intensities are irrelevant here). -/
def gZero : Grid := List.replicate 12 (List.replicate 11 (0 : ℚ))

/-- A solid 4-connected component spanning 12 rows × 12 columns. -/
def block12 : List Pixel :=
  ((List.range 12).map (fun y => (List.range 12).map (fun x => (y, x)))).flatten

/-- An all-zero 12×12 error map. -/
def gZero12 : Grid := List.replicate 12 (List.replicate 12 (0 : ℚ))

/-- A configuration JSON whose `feature_names` key is absent. -/
def cfgNoNames : ConfigJson :=
  { ela_quality := 90
    threshold_multiplier := 2
    min_region_size := 50
    enhancement_strength := 2
    feature_names := none }

/-- Two detected boxes in ascending area order. -/
def boxesPair : List Box := [(0, 0, 2, 2), (0, 0, 3, 3)]

theorem foldl_min_le_init {α : Type} [LinearOrder α] (l : List α) (a : α) :
    l.foldl min a ≤ a := by
  induction l generalizing a with
  | nil => exact le_refl a
  | cons x xs ih => exact le_trans (ih (min a x)) (min_le_left a x)

theorem foldl_min_le_of_mem {α : Type} [LinearOrder α] {x : α} (l : List α) (a : α)
    (h : x ∈ l) : l.foldl min a ≤ x := by
  induction l generalizing a with
  | nil => cases h
  | cons y ys ih =>
    rcases List.mem_cons.mp h with rfl | hm
    · exact le_trans (foldl_min_le_init ys (min a x)) (min_le_right a x)
    · exact ih (min a y) hm

theorem minList_le {α : Type} [LinearOrder α] (d : α) {x : α} {l : List α}
    (h : x ∈ l) : minList d l ≤ x := by
  cases l with
  | nil => cases h
  | cons y ys =>
    rcases List.mem_cons.mp h with rfl | hm
    · exact foldl_min_le_init ys x
    · exact foldl_min_le_of_mem ys y hm

theorem le_foldl_max_init {α : Type} [LinearOrder α] (l : List α) (a : α) :
    a ≤ l.foldl max a := by
  induction l generalizing a with
  | nil => exact le_refl a
  | cons x xs ih => exact le_trans (le_max_left a x) (ih (max a x))

theorem le_foldl_max_of_mem {α : Type} [LinearOrder α] {x : α} (l : List α) (a : α)
    (h : x ∈ l) : x ≤ l.foldl max a := by
  induction l generalizing a with
  | nil => cases h
  | cons y ys ih =>
    rcases List.mem_cons.mp h with rfl | hm
    · exact le_trans (le_max_right a x) (le_foldl_max_init ys (max a x))
    · exact ih (max a y) hm

theorem le_maxList {α : Type} [LinearOrder α] (d : α) {x : α} {l : List α}
    (h : x ∈ l) : x ≤ maxList d l := by
  cases l with
  | nil => cases h
  | cons y ys =>
    rcases List.mem_cons.mp h with rfl | hm
    · exact le_foldl_max_init ys x
    · exact le_foldl_max_of_mem ys y hm

theorem gridSize_eq_length (g : Grid) : gridSize g = (entriesOf g).length := by
  simp [gridSize, entriesOf, List.length_flatten]

theorem histNorm_length (g : Grid) : (histNorm g).length = 10 := by
  simp [histNorm]

/-- The bounding slice of a component contains all of the component's pixels,
so `region_size` in the slice path is the component's full pixel count. -/
theorem sliceProcess_region_size (comp : List Pixel) :
    (comp.filter (fun p =>
      decide (minList 0 (comp.map Prod.fst) ≤ p.1) &&
      decide (p.1 < maxList 0 (comp.map Prod.fst) + 1) &&
      decide (minList 0 (comp.map Prod.snd) ≤ p.2) &&
      decide (p.2 < maxList 0 (comp.map Prod.snd) + 1))) = comp := by
  apply List.filter_eq_self.mpr
  intro p hp
  simp only [Bool.and_eq_true, decide_eq_true_eq]
  refine ⟨⟨⟨?_, ?_⟩, ?_⟩, ?_⟩
  · exact minList_le 0 (List.mem_map_of_mem Prod.fst hp)
  · exact Nat.lt_succ_of_le (le_maxList 0 (List.mem_map_of_mem Prod.fst hp))
  · exact minList_le 0 (List.mem_map_of_mem Prod.snd hp)
  · exact Nat.lt_succ_of_le (le_maxList 0 (List.mem_map_of_mem Prod.snd hp))

/-- C4 (counterexample): with the three artifact files present but the
`feature_names` key absent from the configuration, `_load_artifacts` succeeds
and the service starts, with `feature_names` silently defaulted to `[]` —
contradicting the claim that the absence of any of the four artifacts is
fatal at startup. -/
theorem load_artifacts_absent_names_starts :
    cfgNoNames.feature_names = none ∧
    load_artifacts true true true cfgNoNames =
      Except.ok
        { ela_quality := 90
          threshold_multiplier := 2
          min_region_size := 50
          enhancement_strength := 2
          feature_names := [] } :=
  ⟨rfl, rfl⟩

/-- C4 (amended): startup fails with the fatal artifact error exactly when one
of the three artifact files (classifier, scaler, JSON configuration) is
missing; an absent `feature_names` list inside the configuration is not fatal
and is defaulted to the empty list. -/
theorem load_artifacts_characterization (m s c : Bool) (cfg : ConfigJson) :
    ((m && s && c) = false →
      load_artifacts m s c cfg = Except.error artifactsMissingMsg) ∧
    load_artifacts true true true cfg =
      Except.ok
        { ela_quality := cfg.ela_quality
          threshold_multiplier := cfg.threshold_multiplier
          min_region_size := cfg.min_region_size
          enhancement_strength := cfg.enhancement_strength
          feature_names := cfg.feature_names.getD [] } := by
  constructor
  · intro h
    simp [load_artifacts, h]
  · rfl

/-- C4 (witness): the amended characterization applied with a missing model
file and with all three files present. -/
theorem load_artifacts_characterization_witness :
    load_artifacts false true true cfgNoNames = Except.error artifactsMissingMsg ∧
    load_artifacts true true true cfgNoNames =
      Except.ok
        { ela_quality := 90
          threshold_multiplier := 2
          min_region_size := 50
          enhancement_strength := 2
          feature_names := [] } := by
  have h := load_artifacts_characterization false true true cfgNoNames
  exact ⟨h.1 rfl, (load_artifacts_characterization true true true cfgNoNames).2⟩

/-- C7: assuming the external classifier's contract — `predict_proba` yields
probabilities summing to 1 and `predict` returns 1 exactly on its decision
region `D` of the fake probability — the response panel satisfies
`real_probability + fake_probability = 1` and carries label "FAKE" iff the
fake probability lies in the decision region implied by `predict`. -/
theorem analysisPanel_contract (pred : ℕ) (p : ℚ × ℚ) (D : ℚ → Prop)
    (hp : p.1 + p.2 = 1) (hd : pred = 1 ↔ D p.2) :
    (analysisPanel pred p).real_prob + (analysisPanel pred p).fake_prob = 1 ∧
    ((analysisPanel pred p).label = "FAKE" ↔ D p.2) := by
  constructor
  · simpa [analysisPanel] using hp
  · by_cases h1 : pred = 1
    · simp [analysisPanel, h1]
      exact hd.mp h1
    · have hb : (pred == 1) = false := by simpa using h1
      simp [analysisPanel, hb]
      exact fun hD => h1 (hd.mpr hD)

/-- C7 (witness): a stub classifier predicting FAKE with probability 9/10 and
decision boundary 1/2. -/
theorem analysisPanel_contract_witness :
    (analysisPanel 1 (1/10, 9/10)).real_prob + (analysisPanel 1 (1/10, 9/10)).fake_prob = 1 ∧
    ((analysisPanel 1 (1/10, 9/10)).label = "FAKE" ↔ (1/2 : ℚ) < 9/10) := by
  have h := analysisPanel_contract 1 (1/10, 9/10) (fun q => (1/2 : ℚ) < q)
    (by norm_num) (by constructor <;> intro <;> norm_num)
  exact h

/-- C10: the train/val/test split is a total deterministic function of the
checksum alone: with `r` the first 8 hex digits over `0xFFFFFFFF`, the split
is "train" iff `r < 0.8`, "val" iff `0.8 ≤ r < 0.9`, "test" iff `0.9 ≤ r`,
and exactly one of the three always results. -/
theorem assign_split_characterization (sha : List ℕ) (hlen : 8 ≤ sha.length)
    (hdig : ∀ d ∈ sha, d < 16) :
    (assign_split_from_checksum sha = "train" ↔ splitRatio sha < 0.8) ∧
    (assign_split_from_checksum sha = "val" ↔
      0.8 ≤ splitRatio sha ∧ splitRatio sha < 0.9) ∧
    (assign_split_from_checksum sha = "test" ↔ 0.9 ≤ splitRatio sha) ∧
    (assign_split_from_checksum sha = "train" ∨ assign_split_from_checksum sha = "val" ∨
      assign_split_from_checksum sha = "test") := by
  unfold assign_split_from_checksum SPLIT_THRESHOLDS
  by_cases h1 : splitRatio sha < 0.8
  · have h2 : splitRatio sha < 0.9 := lt_trans h1 (by norm_num)
    simp [h1, h2, not_le.mpr h1]
  · by_cases h2 : splitRatio sha < 0.9
    · simp [h1, h2, not_lt.mp h1, not_le.mpr h2]
    · simp [h1, h2, not_lt.mp h1, not_lt.mp h2]

/-- C10 (witness): the all-zero checksum lands in "train". -/
theorem assign_split_characterization_witness :
    assign_split_from_checksum (List.replicate 8 0) = "train" := by
  have h := assign_split_characterization (List.replicate 8 0) (by decide) (by decide)
  apply h.1.mpr
  unfold splitRatio
  rw [show hexVal ((List.replicate 8 0).take 8) = 0 from by decide]
  norm_num

/-- C3: for every error map, the feature vector built by `extract_features`
has exactly 29 entries, and they appear in the fixed order: 7 global error
statistics, 5 region aggregates, 10 normalized histogram bins, the
25/50/75/90/95 percentiles, and the 2 edge-energy sums. -/
theorem extract_features_shape (mult : ℚ) (minRegion : ℕ) (g : Grid) (sErr sReg : ℚ) :
    (extract_features mult minRegion g sErr sReg).length = 29 ∧
    extract_features mult minRegion g sErr sReg =
      [meanQ g, maxQ g, sErr, medianQ g, thresholdQ mult g sErr,
       (suspiciousCount g (thresholdQ mult g sErr) : ℚ),
       suspiciousPct g (thresholdQ mult g sErr)] ++
      [((find_suspicious_regions g (thresholdQ mult g sErr) minRegion).1.length : ℚ),
       avgRegionSize (find_suspicious_regions g (thresholdQ mult g sErr) minRegion).2.1,
       maxRegionSize (find_suspicious_regions g (thresholdQ mult g sErr) minRegion).2.1,
       avgRegionIntensity (find_suspicious_regions g (thresholdQ mult g sErr) minRegion).2.2,
       regionSizeStd (find_suspicious_regions g (thresholdQ mult g sErr) minRegion).2.1 sReg] ++
      histNorm g ++
      [percentileQ (entriesOf g) 25, percentileQ (entriesOf g) 50,
       percentileQ (entriesOf g) 75, percentileQ (entriesOf g) 90,
       percentileQ (entriesOf g) 95] ++
      [edgesH g, edgesV g] := by
  refine ⟨?_, rfl⟩
  simp [extract_features, histNorm_length]

/-- C5: for every error map with zero variance (all pixels equal), the
adaptive threshold `mean + multiplier * std` equals the mean exactly (the
standard deviation `s`, characterized by `0 ≤ s` and `s * s = variance`, is
forced to 0), and the strictly-greater suspicious-pixel count is 0 — hence
always 0 or the full image, never an inconsistent partial count. -/
theorem threshold_zero_variance (g : Grid) (v mult s : ℚ)
    (hall : ∀ x ∈ entriesOf g, x = v) (hs : 0 ≤ s) (hvar : s * s = varianceQ g) :
    thresholdQ mult g s = meanQ g ∧ suspiciousCount g (thresholdQ mult g s) = 0 := by
  by_cases hn : entriesOf g = []
  · have hvar0 : varianceQ g = 0 := by simp [varianceQ, hn]
    have hs0 : s = 0 := mul_self_eq_zero.mp (hvar.trans hvar0)
    constructor
    · simp [thresholdQ, hs0]
    · simp [suspiciousCount, hn]
  · have hne : ((entriesOf g).length : ℚ) ≠ 0 := by
      have h0 : (entriesOf g).length ≠ 0 := fun h => hn (List.length_eq_zero.mp h)
      exact_mod_cast h0
    have hmean : meanQ g = v := by
      have hsum : (entriesOf g).sum = (entriesOf g).length • v :=
        List.sum_eq_card_nsmul _ _ hall
      rw [meanQ, gridSize_eq_length, hsum, nsmul_eq_mul]
      exact mul_div_cancel_left₀ v hne
    have hnum : ((entriesOf g).map (fun x => (x - meanQ g) ^ 2)).sum = 0 := by
      apply List.sum_eq_zero
      intro y hy
      rcases List.mem_map.mp hy with ⟨x, hx, rfl⟩
      rw [hall x hx, hmean]
      ring
    have hvar0 : varianceQ g = 0 := by simp [varianceQ, hnum]
    have hs0 : s = 0 := mul_self_eq_zero.mp (hvar.trans hvar0)
    have ht : thresholdQ mult g s = meanQ g := by simp [thresholdQ, hs0]
    refine ⟨ht, ?_⟩
    rw [ht, hmean]
    simp only [suspiciousCount, List.length_eq_zero]
    apply List.filter_eq_nil_iff.mpr
    intro x hx
    rw [hall x hx]
    simp

/-- C5 (witness): a uniform 2×2 error map of value 3 with multiplier 7/2. -/
theorem threshold_zero_variance_witness :
    thresholdQ (7/2) [[3, 3], [3, 3]] 0 = meanQ [[3, 3], [3, 3]] ∧
    suspiciousCount [[3, 3], [3, 3]] (thresholdQ (7/2) [[3, 3], [3, 3]] 0) = 0 := by
  have h := threshold_zero_variance [[3, 3], [3, 3]] 3 (7/2) 0
    (by decide) (by norm_num)
    (by norm_num [varianceQ, meanQ, entriesOf, gridSize])
  exact h

/-- C6: degenerate-but-valid inputs never fail: with zero suspicious pixels or
zero labeled components `find_suspicious_regions` returns three empty lists;
on the empty region list all region aggregates are exactly zero; and a
zero-range error map makes the heatmap normalization divide by the guarded
value 1, mapping every pixel to 0. -/
theorem degenerate_inputs_safe (g : Grid) (t : ℚ) (a : ℕ) (s : ℚ) (g2 : Grid) :
    (suspiciousCount g t = 0 → find_suspicious_regions g t a = ([], [], [])) ∧
    (labelComponents (truePixelsM (suppressedMask g t)) = [] →
      find_suspicious_regions g t a = ([], [], [])) ∧
    (avgRegionSize [] = 0 ∧ maxRegionSize [] = 0 ∧ avgRegionIntensity [] = 0 ∧
      regionSizeStd [] s = 0) ∧
    (ptpQ g2 = 0 → heatDenom g2 = 1 ∧ ∀ x ∈ entriesOf (heatNormalize g2), x = 0) := by
  refine ⟨?_, ?_, ⟨rfl, rfl, rfl, rfl⟩, ?_⟩
  · intro h
    simp [find_suspicious_regions, h]
  · intro h
    by_cases hc : suspiciousCount g t = 0
    · simp [find_suspicious_regions, hc]
    · simp [find_suspicious_regions, hc, h]
  · intro hptp
    have hd : heatDenom g2 = 1 := by simp [heatDenom, hptp]
    refine ⟨hd, ?_⟩
    have hminmax : maxQ g2 = minQ g2 := sub_eq_zero.mp (by simpa [ptpQ] using hptp)
    intro x hx
    have hent : entriesOf (heatNormalize g2) =
        (entriesOf g2).map (fun v => (v - minQ g2) / heatDenom g2) := by
      simp [entriesOf, heatNormalize, List.map_flatten]
    rw [hent] at hx
    rcases List.mem_map.mp hx with ⟨v, hv, rfl⟩
    have h1 : minQ g2 ≤ v := minList_le 0 hv
    have h2 : v ≤ maxQ g2 := le_maxList 0 hv
    have hveq : v = minQ g2 := le_antisymm (hminmax ▸ h2) h1
    rw [hveq]
    simp

/-- C6 (witness): a 1×1 map with no suspicious pixels (and no labeled
components), and a constant 1×2 map with zero range. -/
theorem degenerate_inputs_safe_witness :
    find_suspicious_regions [[1]] 5 50 = ([], [], []) ∧
    (heatDenom [[2, 2]] = 1 ∧ ∀ x ∈ entriesOf (heatNormalize [[2, 2]]), x = 0) := by
  have h := degenerate_inputs_safe [[1]] 5 50 3 [[2, 2]]
  have hc : suspiciousCount [[1]] 5 = 0 := by decide
  have hmask : suppressedMask [[1]] 5 = maskOf [[1]] 5 := by
    rw [suppressedMask, if_neg]
    rw [suspiciousPct, hc]
    norm_num
  have hm : labelComponents (truePixelsM (suppressedMask [[1]] 5)) = [] := by
    rw [hmask]
    decide
  have hptp : ptpQ [[2, 2]] = 0 := by
    norm_num [ptpQ, maxQ, minQ, entriesOf, maxList, minList]
  exact ⟨h.2.1 hm, h.2.2.2 hptp⟩

/-- C8: in both extraction strategies the area filter is a strict `<`
rejection against `min_area`: a component whose pixel count equals the
configured minimum is retained exactly when it passes that path's dimension
filter, and a component one pixel below the minimum is always discarded. -/
theorem area_filter_boundary (g : Grid) (a : ℕ) (comp : List Pixel) :
    (comp.length = a →
      (((coordProcess g a comp).isSome = true) ↔
        (10 < maxList 0 (comp.map Prod.snd) - minList 0 (comp.map Prod.snd) ∧
         10 < maxList 0 (comp.map Prod.fst) - minList 0 (comp.map Prod.fst))) ∧
      (((sliceProcess g a comp).isSome = true) ↔
        (10 < maxList 0 (comp.map Prod.snd) + 1 - minList 0 (comp.map Prod.snd) ∧
         10 < maxList 0 (comp.map Prod.fst) + 1 - minList 0 (comp.map Prod.fst)))) ∧
    (comp.length + 1 = a → coordProcess g a comp = none ∧ sliceProcess g a comp = none) := by
  constructor
  · intro hlen
    constructor
    · rw [coordProcess, if_neg (by omega)]
      by_cases hdim : 10 < maxList 0 (comp.map Prod.snd) - minList 0 (comp.map Prod.snd) ∧
          10 < maxList 0 (comp.map Prod.fst) - minList 0 (comp.map Prod.fst)
      · simp [hdim]
      · simp [hdim]
    · rw [sliceProcess]
      simp only [sliceProcess_region_size]
      rw [if_neg (by omega)]
      by_cases hdim : 10 < maxList 0 (comp.map Prod.snd) + 1 - minList 0 (comp.map Prod.snd) ∧
          10 < maxList 0 (comp.map Prod.fst) + 1 - minList 0 (comp.map Prod.fst)
      · simp [hdim]
      · simp [hdim]
  · intro hlen
    constructor
    · rw [coordProcess, if_pos (by omega)]
    · rw [sliceProcess]
      simp only [sliceProcess_region_size]
      rw [if_pos (by omega)]

set_option maxRecDepth 100000 in
/-- C8 (witness): a solid 12×12 component (144 pixels, both extents 12): it is
retained when `min_area = 144` and discarded when `min_area = 145`, in both
strategies. -/
theorem area_filter_boundary_witness :
    (coordProcess gZero12 144 block12).isSome = true ∧
    coordProcess gZero12 145 block12 = none ∧
    (sliceProcess gZero12 144 block12).isSome = true ∧
    sliceProcess gZero12 145 block12 = none := by
  have h1 := area_filter_boundary gZero12 144 block12
  have h2 := area_filter_boundary gZero12 145 block12
  refine ⟨((h1.1 (by decide)).1).mpr (by decide), (h2.2 (by decide)).1,
          ((h1.1 (by decide)).2).mpr (by decide), (h2.2 (by decide)).2⟩

set_option maxRecDepth 100000 in
/-- C2 (counterexample): a solid component spanning 11 columns × 12 rows —
actual pixel extents 11 and 12, pixel count 132 ≥ the default minimum area 50.
The claim says such a component is included in either strategy, and the
bounding-slice path does include it, but the coordinate-enumeration path
computes `width = x_max - x_min = 10`, fails the `width > 10` test and
excludes it: its dimension filter is a strict `>` on extent − 1, not on the
actual pixel extent. -/
theorem coord_dimension_filter_divergence :
    extentW comp11x12 = 11 ∧ extentH comp11x12 = 12 ∧ comp11x12.length = 132 ∧
    coordProcess gZero 50 comp11x12 = none ∧
    (sliceProcess gZero 50 comp11x12).isSome = true := by decide

set_option maxRecDepth 400000 in
/-- C1 (counterexample): on a fixed boolean mask (a plus-shaped component of
21 pixels spanning 11 rows × 11 columns, no noise suppression involved) with
minimum region area 1, the bounding-slice strategy reports the region
`(0, 0, 11, 11)` with pixel count 21 while the coordinate-enumeration
strategy reports nothing (it computes width = height = 10 and drops the
component), so the two strategies do not yield identical record sets. -/
theorem strategy_divergence :
    recordsOf (sliceStrategy gPlus 1 (labelComponents (truePixelsM (maskOf gPlus 0)))) ≠
    recordsOf (coordStrategy gPlus 1 (labelComponents (truePixelsM (maskOf gPlus 0)))) := by
  decide

theorem insertDesc_perm (x : Box × ℕ) (l : List (Box × ℕ)) :
    (insertDesc x l).Perm (x :: l) := by
  induction l with
  | nil => exact List.Perm.refl _
  | cons y ys ih =>
    by_cases h : y.2 ≤ x.2
    · simp only [insertDesc, if_pos h]
      exact List.Perm.refl _
    · simp only [insertDesc, if_neg h]
      exact (ih.cons y).trans (List.Perm.swap x y ys)

theorem sortBoxesDesc_perm (l : List (Box × ℕ)) : (sortBoxesDesc l).Perm l := by
  induction l with
  | nil => exact List.Perm.refl _
  | cons x xs ih =>
    have : sortBoxesDesc (x :: xs) = insertDesc x (sortBoxesDesc xs) := rfl
    rw [this]
    exact (insertDesc_perm x (sortBoxesDesc xs)).trans (ih.cons x)

theorem insertDesc_sorted (x : Box × ℕ) (l : List (Box × ℕ))
    (h : List.Sorted (fun p q : Box × ℕ => q.2 ≤ p.2) l) :
    List.Sorted (fun p q : Box × ℕ => q.2 ≤ p.2) (insertDesc x l) := by
  induction l with
  | nil => simp [insertDesc]
  | cons y ys ih =>
    rw [List.sorted_cons] at h
    by_cases hc : y.2 ≤ x.2
    · simp only [insertDesc, if_pos hc]
      rw [List.sorted_cons]
      refine ⟨?_, List.sorted_cons.mpr h⟩
      intro b hb
      rcases List.mem_cons.mp hb with rfl | hb2
      · exact hc
      · exact le_trans (h.1 b hb2) hc
    · simp only [insertDesc, if_neg hc]
      rw [List.sorted_cons]
      constructor
      · intro b hb
        rcases List.mem_cons.mp ((insertDesc_perm x ys).mem_iff.mp hb) with rfl | hb2
        · exact le_of_lt (lt_of_not_le hc)
        · exact h.1 b hb2
      · exact ih h.2

theorem sortBoxesDesc_sorted (l : List (Box × ℕ)) :
    List.Sorted (fun p q : Box × ℕ => q.2 ≤ p.2) (sortBoxesDesc l) := by
  induction l with
  | nil => simp [sortBoxesDesc]
  | cons x xs ih => exact insertDesc_sorted x (sortBoxesDesc xs) ih

theorem filter_insertDesc (k : ℕ) (x : Box × ℕ) (l : List (Box × ℕ)) :
    (insertDesc x l).filter (fun p => p.2 == k) =
      if x.2 == k then x :: l.filter (fun p => p.2 == k)
      else l.filter (fun p => p.2 == k) := by
  induction l with
  | nil => by_cases hx : x.2 == k <;> simp [insertDesc, hx, List.filter]
  | cons y ys ih =>
    by_cases hc : y.2 ≤ x.2
    · simp only [insertDesc, if_pos hc]
      by_cases hx : x.2 == k <;> by_cases hy : y.2 == k <;>
        simp [List.filter_cons, hx, hy]
    · simp only [insertDesc, if_neg hc]
      by_cases hy : y.2 == k
      · by_cases hx : x.2 == k
        · exfalso
          have hx2 : x.2 = k := by simpa using hx
          have hy2 : y.2 = k := by simpa using hy
          exact hc (le_of_eq (hy2.trans hx2.symm))
        · simp [List.filter_cons, hx, hy, ih]
      · by_cases hx : x.2 == k <;> simp [List.filter_cons, hx, hy, ih]

theorem sortBoxesDesc_filter (k : ℕ) (l : List (Box × ℕ)) :
    (sortBoxesDesc l).filter (fun p => p.2 == k) = l.filter (fun p => p.2 == k) := by
  induction l with
  | nil => rfl
  | cons x xs ih =>
    have hstep : sortBoxesDesc (x :: xs) = insertDesc x (sortBoxesDesc xs) := rfl
    rw [hstep, filter_insertDesc]
    by_cases hx : x.2 == k <;> simp [List.filter_cons, hx, ih]

theorem map_fst_pairing (boxes : List Box) :
    (boxes.map (fun b => (b, area b))).map Prod.fst = boxes := by
  induction boxes with
  | nil => rfl
  | cons b bs ih => simp [ih]

/-- C9 (counterexample): with two detected boxes of areas 4 and 9 in that
order, `top_boxes` is the area-descending reordering, which is not a
subsequence of the detected box list. -/
theorem topBoxes_not_sublist : ¬ List.Sublist (topBoxes boxesPair) boxesPair := by
  decide

/-- C9 (amended): the visualization step selects at most `TOP_N_BOXES = 10`
regions: exactly the first ten entries of the stable descending-by-area sort
of the detected boxes (sorted by `width * height` descending, ties keeping
original detection order, witnessed by the per-key filter identity); the
selected boxes form a sub-permutation (not a subsequence) of the detected
boxes. -/
theorem topBoxes_selection (boxes : List Box) :
    (topBoxes boxes).length ≤ TOP_N_BOXES ∧
    topBoxes boxes =
      ((sortBoxesDesc (boxes.map (fun b => (b, area b)))).take TOP_N_BOXES).map Prod.fst ∧
    List.Sorted (fun p q : Box × ℕ => q.2 ≤ p.2)
      (sortBoxesDesc (boxes.map (fun b => (b, area b)))) ∧
    (∀ k : ℕ, (sortBoxesDesc (boxes.map (fun b => (b, area b)))).filter (fun p => p.2 == k) =
      (boxes.map (fun b => (b, area b))).filter (fun p => p.2 == k)) ∧
    List.Subperm (topBoxes boxes) boxes := by
  refine ⟨?_, rfl, sortBoxesDesc_sorted _, fun k => sortBoxesDesc_filter k _, ?_⟩
  · have h1 : (topBoxes boxes).length =
        ((sortBoxesDesc (boxes.map (fun b => (b, area b)))).take TOP_N_BOXES).length := by
      simp [topBoxes]
    rw [h1, List.length_take]
    exact min_le_left _ _
  · have hsub : (((sortBoxesDesc (boxes.map (fun b => (b, area b)))).take TOP_N_BOXES).map
        Prod.fst).Sublist ((sortBoxesDesc (boxes.map (fun b => (b, area b)))).map Prod.fst) :=
      (List.take_sublist _ _).map Prod.fst
    have hperm : ((sortBoxesDesc (boxes.map (fun b => (b, area b)))).map Prod.fst).Perm
        ((boxes.map (fun b => (b, area b))).map Prod.fst) :=
      (sortBoxesDesc_perm _).map Prod.fst
    have hid : (boxes.map (fun b => (b, area b))).map Prod.fst = boxes :=
      map_fst_pairing boxes
    exact hsub.subperm.trans ((hid ▸ hperm).subperm)
